import Mathlib

/-!
Verification development for the selective LaTeX-diff editing core of the
repository (src/lib/latexDiff.js and the simple-agent document store).

The JavaScript source is shallowly embedded: strings are Lean `String`s
(lists of characters), JavaScript array splices and sorts are modelled as
list operations, and the two regular expressions of latexDiff.js are
modelled by a small backtracking matcher in continuation-passing style
that mirrors greedy (`\s*`) and lazy (`.*?`, `[\s\S]*?`) quantifier
semantics exactly.  All definitions are executable.
-/

namespace LatexDiff

/-- Characters matched by the JavaScript regular-expression class `\s`
(ECMAScript WhiteSpace plus LineTerminator, as used by `\s`, `String.trim`
and `Number` coercion). -/
def isJsWs (c : Char) : Bool :=
  c = ' ' ∨ c = '\t' ∨ c = '\n' ∨ c = '\r' ∨ c = '\x0b' ∨ c = '\x0c' ∨
  c.toNat = 0xa0 ∨ c.toNat = 0x1680 ∨ (0x2000 ≤ c.toNat ∧ c.toNat ≤ 0x200a) ∨
  c.toNat = 0x2028 ∨ c.toNat = 0x2029 ∨ c.toNat = 0x202f ∨ c.toNat = 0x205f ∨
  c.toNat = 0x3000 ∨ c.toNat = 0xfeff

/-- Characters matched by the JavaScript LineTerminator set, which the
regular-expression `.` (without the `s` flag) does not match. -/
def isJsLineTerm (c : Char) : Bool :=
  c = '\n' ∨ c = '\r' ∨ c.toNat = 0x2028 ∨ c.toNat = 0x2029

/-- Model of JavaScript `String.prototype.trim` on a character list:
drop JS whitespace from both ends. -/
def jsTrimL (l : List Char) : List Char :=
  ((l.dropWhile isJsWs).reverse.dropWhile isJsWs).reverse

/-- Model of JavaScript `str.split(sep)` for a single-character separator
(accumulator-based, `cur` holds the current chunk reversed). -/
def splitOnCharGo (sep : Char) : List Char → List Char → List String
  | [], cur => [String.mk cur.reverse]
  | c :: rest, cur =>
    if c = sep then String.mk cur.reverse :: splitOnCharGo sep rest []
    else splitOnCharGo sep rest (c :: cur)

/-- JavaScript `str.split(sep)` for a single-character separator:
`"".split(sep) = [""]`, separators at the ends produce empty chunks. -/
def splitOnChar (sep : Char) (s : String) : List String :=
  splitOnCharGo sep s.data []

/-- Worker for `jsSplitWs`: `cur` is the current chunk reversed, `inWs`
records whether we are inside a whitespace run (whose chunk has already
been emitted), `acc` holds finished chunks reversed. -/
def splitWsGo : List Char → List Char → Bool → List String → List String
  | [], cur, inWs, acc =>
    ((if inWs then ("" : String) else String.mk cur.reverse) :: acc).reverse
  | c :: rest, cur, inWs, acc =>
    if isJsWs c then
      if inWs then splitWsGo rest [] true acc
      else splitWsGo rest [] true (String.mk cur.reverse :: acc)
    else splitWsGo rest (c :: cur) false acc

/-- JavaScript `str.split(/\s+/)`: maximal whitespace runs are separators;
a leading or trailing run yields an empty chunk; `"" ↦ [""]`. -/
def jsSplitWs (s : List Char) : List String :=
  splitWsGo s [] false []

/-- A JavaScript value stored in the parsed-metadata object: a string, an
integer, or the number NaN (which `parseInt` can produce). -/
inductive JsVal where
  | str (s : String)
  | int (n : Int)
  | nan
  deriving DecidableEq, Repr

/-- JavaScript truthiness of `metadata[key]` (with `none` standing for
`undefined`): `undefined`, `""`, `0` and `NaN` are falsy. -/
def jsTruthy : Option JsVal → Bool
  | none => false
  | some (JsVal.str s) => ¬ (s = "")
  | some (JsVal.int n) => ¬ (n = 0)
  | some JsVal.nan => false

/-- Property lookup on the metadata object, modelled as an association
list where the most recent assignment is at the head. -/
def lookupKey : List (String × JsVal) → String → Option JsVal
  | [], _ => none
  | (k, v) :: rest, key => if k = key then some v else lookupKey rest key

/-- JavaScript `a || b` on a possibly-undefined left operand. -/
def jsOr (a : Option JsVal) (b : JsVal) : JsVal :=
  match a with
  | some v => if jsTruthy (some v) then v else b
  | none => b

/-- Decimal digit test. -/
def isDigitC (c : Char) : Bool := 48 ≤ c.toNat ∧ c.toNat ≤ 57

/-- Hexadecimal digit test. -/
def isHexDigitC (c : Char) : Bool :=
  isDigitC c ∨ (97 ≤ c.toNat ∧ c.toNat ≤ 102) ∨ (65 ≤ c.toNat ∧ c.toNat ≤ 70)

/-- Binary digit test. -/
def isBinDigitC (c : Char) : Bool := c = '0' ∨ c = '1'

/-- Octal digit test. -/
def isOctDigitC (c : Char) : Bool := 48 ≤ c.toNat ∧ c.toNat ≤ 55

/-- Scan a maximal run of decimal digits, returning the remaining input,
the accumulated value and the number of digits consumed. -/
def scanDecVal : List Char → Nat → Nat → (List Char × Nat × Nat)
  | [], acc, n => ([], acc, n)
  | c :: rest, acc, n =>
    if isDigitC c then scanDecVal rest (acc * 10 + (c.toNat - 48)) (n + 1)
    else (c :: rest, acc, n)

/-- Value of a hexadecimal digit. -/
def hexVal (c : Char) : Nat :=
  if isDigitC c then c.toNat - 48
  else if 97 ≤ c.toNat then c.toNat - 87 else c.toNat - 55

/-- Scan a maximal run of hexadecimal digits. -/
def scanHexVal : List Char → Nat → Nat → (List Char × Nat × Nat)
  | [], acc, n => ([], acc, n)
  | c :: rest, acc, n =>
    if isHexDigitC c then scanHexVal rest (acc * 16 + hexVal c) (n + 1)
    else (c :: rest, acc, n)

/-- Validity of an optional decimal exponent suffix (`e`/`E`, optional
sign, at least one digit, nothing after). -/
def expPartOk : List Char → Bool
  | [] => true
  | c :: rest =>
    if c = 'e' ∨ c = 'E' then
      let rest2 := match rest with
        | c2 :: r2 => if c2 = '+' ∨ c2 = '-' then r2 else c2 :: r2
        | [] => []
      let p := scanDecVal rest2 0 0
      0 < p.2.2 ∧ p.1 = []
    else false

/-- Validity of what follows the integer part of a decimal literal. -/
def decTailOk : List Char → Nat → Bool
  | [], intDigits => 0 < intDigits
  | c :: rest, intDigits =>
    if c = '.' then
      let p := scanDecVal rest 0 0
      0 < intDigits + p.2.2 ∧ expPartOk p.1
    else 0 < intDigits ∧ expPartOk (c :: rest)

/-- Validity of an unsigned decimal numeric literal. -/
def decNumOk (body : List Char) : Bool :=
  let p := scanDecVal body 0 0
  decTailOk p.1 p.2.2

/-- Core of `jsNumOk`: is the (already trimmed) text a valid JavaScript
numeric literal for `Number` coercion? -/
def jsNumOkCore (l : List Char) : Bool :=
  match l with
  | [] => true
  | c :: rest =>
    let sgn : Bool := c = '+' ∨ c = '-'
    let body := if sgn then rest else c :: rest
    if body = "Infinity".data then true
    else
      match body with
      | c0 :: c1 :: r2 =>
        if c0 = '0' ∧ (c1 = 'x' ∨ c1 = 'X') then
          ¬ sgn ∧ ¬ (r2 = []) ∧ r2.all isHexDigitC
        else if c0 = '0' ∧ (c1 = 'b' ∨ c1 = 'B') then
          ¬ sgn ∧ ¬ (r2 = []) ∧ r2.all isBinDigitC
        else if c0 = '0' ∧ (c1 = 'o' ∨ c1 = 'O') then
          ¬ sgn ∧ ¬ (r2 = []) ∧ r2.all isOctDigitC
        else decNumOk body
      | _ => decNumOk body

/-- Is `isNaN(s)` false in JavaScript, i.e. does `Number(s)` produce a
number?  (`Number` trims whitespace and maps `""` to `0`.) -/
def jsNumOk (s : String) : Bool :=
  jsNumOkCore (jsTrimL s.data)

/-- Model of JavaScript `parseInt(s)` (radix 10, or 16 after an `0x`
prefix): returns `JsVal.nan` when no digits are found. -/
def jsParseIntVal (s : String) : JsVal :=
  let l := jsTrimL s.data
  let sgnBody : Bool × List Char :=
    match l with
    | c :: rest =>
      if c = '-' then (true, rest)
      else if c = '+' then (false, rest) else (false, c :: rest)
    | [] => (false, [])
  let neg := sgnBody.1
  let scanned : List Char × Nat × Nat :=
    match sgnBody.2 with
    | c0 :: c1 :: r2 =>
      if c0 = '0' ∧ (c1 = 'x' ∨ c1 = 'X') then scanHexVal r2 0 0
      else scanDecVal sgnBody.2 0 0
    | _ => scanDecVal sgnBody.2 0 0
  if scanned.2.2 = 0 then JsVal.nan
  else JsVal.int (if neg then -(scanned.2.1 : Int) else (scanned.2.1 : Int))

/-- The value stored by `metadata[key] = isNaN(value) ? value : parseInt(value)`
in parseLatexDiff. -/
def metaValue (v : String) : JsVal :=
  if jsNumOk v then jsParseIntVal v else JsVal.str v

/-- Match a literal character sequence at the head of the input, returning
the rest of the input on success. -/
def dropLit : List Char → List Char → Option (List Char)
  | [], s => some s
  | _ :: _, [] => none
  | p :: ps, c :: cs => if p = c then dropLit ps cs else none

/-- Backtracking matcher for a greedy `\s*`: try the longest whitespace
run first, retreating one character at a time, and hand the remaining
input to the continuation `k` (which contains the rest of the pattern). -/
def matchWsStarGreedy {α : Type} (s : List Char) (k : List Char → Option α) :
    Option α :=
  match s with
  | [] => k []
  | c :: rest =>
    if isJsWs c then (matchWsStarGreedy rest k <|> k (c :: rest))
    else k (c :: rest)

/-- Backtracking matcher for a lazy `(.*?)` (dot excludes line
terminators): try the continuation on the shortest capture first, then
extend.  `acc` is the capture so far, reversed; `k` receives the capture
and the remaining input. -/
def matchDotLazy {α : Type} (acc : List Char) (s : List Char)
    (k : List Char → List Char → Option α) : Option α :=
  k acc.reverse s <|>
    match s with
    | [] => none
    | c :: rest =>
      if isJsLineTerm c then none else matchDotLazy (c :: acc) rest k

/-- Backtracking matcher for a lazy `([\s\S]*?)`: like `matchDotLazy` but
matching every character. -/
def matchAnyLazy {α : Type} (acc : List Char) (s : List Char)
    (k : List Char → List Char → Option α) : Option α :=
  k acc.reverse s <|>
    match s with
    | [] => none
    | c :: rest => matchAnyLazy (c :: acc) rest k

/-- The three-backtick code-fence marker (written with `\x60` escapes). -/
def fenceTicks : List Char := ['\x60', '\x60', '\x60']

/-- The backtick character. -/
def tickChar : Char := '\x60'

/-- The literal fence-open marker of a diff block. -/
def fenceDiffL : List Char :=
  ['\x60', '\x60', '\x60', 'l', 'a', 't', 'e', 'x', '-', 'd', 'i', 'f', 'f']

/-- The `@@` metadata delimiter. -/
def atat : List Char := ['@', '@']

/-- Continuation after the lazy body capture of the block regex: the
closing fence must follow; returns the captured body and the input after
the whole match. -/
def bodyFin (body rest : List Char) : Option (List Char × List Char) :=
  (dropLit fenceTicks rest).map fun r => (body, r)

/-- Matcher for `([\s\S]*?)` followed by the closing fence. -/
def matchBody (s : List Char) : Option (List Char × List Char) :=
  matchAnyLazy [] s bodyFin

/-- Continuation after the greedy `\s*` that follows the metadata line's
closing `@@`: a literal newline, then the body and closing fence. -/
def afterNl : List Char → Option (List Char × List Char)
  | [] => none
  | c :: rest => if c = '\n' then matchBody rest else none

/-- Matcher for `\s*\n([\s\S]*?)` + closing fence, entered just after the
metadata line's closing `@@`. -/
def afterClose (s : List Char) : Option (List Char × List Char) :=
  matchWsStarGreedy s afterNl

/-- Continuation tried at a candidate end of the lazy metadata capture,
already past the inner `\s*`: the closing `@@` and everything after it. -/
def metaCloseAt (m : List Char) (s : List Char) :
    Option (List Char × List Char × List Char) :=
  (dropLit atat s).bind fun s2 =>
    (afterClose s2).map fun p => (m, p.1, p.2)

/-- Continuation of the lazy metadata capture `(.*?)`: the greedy inner
`\s*` then `metaCloseAt`. -/
def metaClose (m : List Char) (s : List Char) :
    Option (List Char × List Char × List Char) :=
  matchWsStarGreedy s (metaCloseAt m)

/-- Attempt to match the whole block regular expression
```latex-diff\s*\n@@\s*(.*?)\s*@@\s*\n([\s\S]*?)``` (from parseLatexDiff)
at the head of `s`, with exact backtracking semantics; on success returns
(metadata capture, body capture, input after the match). -/
def matchBlockAt (s : List Char) : Option (List Char × List Char × List Char) :=
  (dropLit fenceDiffL s).bind fun s1 =>
    matchWsStarGreedy s1 fun s2 =>
      match s2 with
      | [] => none
      | c :: s3 =>
        if c = '\n' then
          (dropLit atat s3).bind fun s4 =>
            matchWsStarGreedy s4 fun s5 => matchDotLazy [] s5 metaClose
        else none

/-- Leftmost search for the block regular expression, as performed by the
`exec` loop of parseLatexDiff. -/
def searchFrom : List Char → Option (List Char × List Char × List Char)
  | [] => none
  | c :: rest => matchBlockAt (c :: rest) <|> searchFrom rest

/-- One parsed diff record as pushed by parseLatexDiff.  The JavaScript
object also carries `metadata` and `raw` fields, retained for diagnostics
only; they are not modelled.  Metadata values keep their JavaScript types
(string, integer or NaN). -/
structure ParsedBlock where
  operation : JsVal
  line : JsVal
  deleteCount : JsVal
  insertContent : String
  deriving DecidableEq, Repr

/-- Fold of the metadata-pair loop of parseLatexDiff: split the metadata
capture on `\s+`, split each pair at `:`, and assign
`metadata[key] = isNaN(value) ? value : parseInt(value)` for every pair
with a truthy key and a defined value (most recent assignment first). -/
def parseMetadata (metadataStr : List Char) : List (String × JsVal) :=
  (jsSplitWs metadataStr).foldl
    (fun m pair =>
      let parts := splitOnChar ':' pair
      let key := parts.headD ""
      match parts.get? 1 with
      | none => m
      | some v => if key = "" then m else (key, metaValue v) :: m)
    []

/-- Build one record from a matched block, mirroring the validation and
push of parseLatexDiff: blocks missing a truthy `operation` or a defined
`line` are discarded; a falsy `delete` on a delete operation defaults to
1; `deleteCount` is `metadata.delete || (operation === 'delete' ? 1 : 0)`;
the body is stored trimmed. -/
def mkBlock (metadataStr code : List Char) : Option ParsedBlock :=
  let metadata := parseMetadata metadataStr
  if jsTruthy (lookupKey metadata "operation") = false ∨
      lookupKey metadata "line" = none then none
  else
    let metadata2 :=
      if lookupKey metadata "operation" = some (JsVal.str "delete") ∧
          jsTruthy (lookupKey metadata "delete") = false then
        ("delete", JsVal.int 1) :: metadata
      else metadata
    some
      { operation := (lookupKey metadata2 "operation").getD (JsVal.str "")
        line := (lookupKey metadata2 "line").getD JsVal.nan
        deleteCount :=
          jsOr (lookupKey metadata2 "delete")
            (if lookupKey metadata2 "operation" = some (JsVal.str "delete")
             then JsVal.int 1 else JsVal.int 0)
        insertContent := String.mk (jsTrimL code) }

/-- The `exec` loop of parseLatexDiff: find the next block match, build a
record from it (skipping invalid blocks) and continue after the match.
`fuel` bounds the number of iterations; every match consumes at least the
fence-open marker, so `length + 1` fuel never runs out. -/
def parseLoop : Nat → List Char → List ParsedBlock
  | 0, _ => []
  | fuel + 1, s =>
    match searchFrom s with
    | none => []
    | some (m, b, rest) =>
      match mkBlock m b with
      | none => parseLoop fuel rest
      | some blk => blk :: parseLoop fuel rest

/-- Embedding of `parseLatexDiff(content)` from src/lib/latexDiff.js. -/
def parseLatexDiff (content : String) : List ParsedBlock :=
  parseLoop (content.data.length + 1) content.data

/-- Continuation closing the `hasLatexDiffs` pattern: the second `@@`. -/
def hasK (_m s : List Char) : Option Unit :=
  (dropLit atat s).map fun _ => ()

/-- Attempt to match the `hasLatexDiffs` regular expression
```latex-diff\s*\n@@.*?@@ at the head of `s`. -/
def hasBlockAt (s : List Char) : Bool :=
  ((dropLit fenceDiffL s).bind fun s1 =>
    matchWsStarGreedy s1 fun s2 =>
      match s2 with
      | [] => none
      | c :: s3 =>
        if c = '\n' then (dropLit atat s3).bind fun s4 => matchDotLazy [] s4 hasK
        else none).isSome

/-- Scan for a match of the `hasLatexDiffs` pattern anywhere. -/
def hasScan : List Char → Bool
  | [] => false
  | c :: rest => hasBlockAt (c :: rest) || hasScan rest

/-- Embedding of `hasLatexDiffs(content)` from src/lib/latexDiff.js. -/
def hasLatexDiffs (content : String) : Bool :=
  hasScan content.data

/-- A diff record as consumed by applyLatexDiffs and validateDiffBlock,
for the ordinary case in which `line` and `deleteCount` parsed as
integers and `operation` as a string (the typed view assumed by the
spec's application-level statements). -/
structure DiffBlock where
  operation : String
  line : Int
  deleteCount : Int
  insertContent : String
  deriving DecidableEq, Repr

/-- JavaScript `n || d` for numbers: `0` is falsy. -/
def jsOrInt (n d : Int) : Int :=
  if n = 0 then d else n

/-- JavaScript `content.split('\n')`. -/
def splitNL (content : String) : List String :=
  splitOnChar '\n' content

/-- JavaScript `insertContent ? insertContent.split('\n') : []` as used by
applyLatexDiffs for every operation's insertion list. -/
def insertLinesOf (b : DiffBlock) : List String :=
  if b.insertContent = "" then [] else splitOnChar '\n' b.insertContent

/-- Model of JavaScript `Array.prototype.splice(start, deleteCount,
...items)` on a list of lines, including the clamping of a negative or
out-of-range `start` and of `deleteCount`. -/
def jsSplice (l : List String) (start delC : Int) (items : List String) :
    List String :=
  let len : Int := l.length
  let s := (if start < 0 then max (len + start) 0 else min start len).toNat
  let d := (min (max delC 0) (len - (s : Int))).toNat
  l.take s ++ items ++ l.drop (s + d)

/-- One iteration of the applyLatexDiffs switch: splice the lines
according to the block's operation (unknown operations only warn). -/
def applyBlock (lines : List String) (b : DiffBlock) : List String :=
  let zeroBasedLine : Int := b.line - 1
  if b.operation = "add" then jsSplice lines zeroBasedLine 0 (insertLinesOf b)
  else if b.operation = "replace" then
    jsSplice lines zeroBasedLine (jsOrInt b.deleteCount 1) (insertLinesOf b)
  else if b.operation = "delete" then
    jsSplice lines zeroBasedLine (jsOrInt b.deleteCount 1) []
  else lines

/-- Insert a block into a list already sorted by descending `line`,
placing it after all blocks with a greater-or-equal `line` — the stable
order produced by `sort((a, b) => b.line - a.line)`. -/
def insertDesc (b : DiffBlock) : List DiffBlock → List DiffBlock
  | [] => [b]
  | x :: xs => if x.line < b.line then b :: x :: xs else x :: insertDesc b xs

/-- Stable descending-by-`line` sort of a batch, the model of
`[...diffBlocks].sort((a, b) => b.line - a.line)`. -/
def sortBlocksDesc (bs : List DiffBlock) : List DiffBlock :=
  bs.foldl (fun acc b => insertDesc b acc) []

/-- Embedding of `applyLatexDiffs(originalContent, diffBlocks)` from
src/lib/latexDiff.js: split into lines, apply the blocks sorted by
descending line number, join with newlines. -/
def applyLatexDiffs (originalContent : String) (diffBlocks : List DiffBlock) :
    String :=
  String.intercalate "\n"
    ((sortBlocksDesc diffBlocks).foldl applyBlock (splitNL originalContent))

/-- Result object of validateDiffBlock. -/
structure ValidationResult where
  valid : Bool
  errors : List String
  deriving DecidableEq, Repr

/-- Embedding of `validateDiffBlock(content, diffBlock)` from
src/lib/latexDiff.js. -/
def validateDiffBlock (content : String) (diffBlock : DiffBlock) :
    ValidationResult :=
  let lines := splitNL content
  let rangeErrors : List String :=
    if diffBlock.line < 1 ∨ (lines.length : Int) + 1 < diffBlock.line then
      ["Line " ++ toString diffBlock.line ++ " is out of range (content has " ++
        toString lines.length ++ " lines)"]
    else []
  let endLine : Int := diffBlock.line + jsOrInt diffBlock.deleteCount 1 - 1
  let spanErrors : List String :=
    if (diffBlock.operation = "replace" ∨ diffBlock.operation = "delete") ∧
        (lines.length : Int) < endLine then
      ["Cannot delete/replace lines " ++ toString diffBlock.line ++ "-" ++
        toString endLine ++ " (content only has " ++ toString lines.length ++
        " lines)"]
    else []
  let errors := rangeErrors ++ spanErrors
  { valid := errors.isEmpty, errors := errors }

end LatexDiff

namespace SimpleAgent

open LatexDiff

/-- One undo-history entry (`{content, description, timestamp}`); the
wall-clock timestamp is diagnostic only and not modelled. -/
structure UndoEntry where
  content : String
  description : String
  deriving DecidableEq, Repr

/-- The module-level mutable state of the simple agent: the document
text, the undo history, and whether a change callback is registered. -/
structure AgentState where
  documentContent : String
  undoHistory : List UndoEntry
  callbackRegistered : Bool
  deriving DecidableEq, Repr

/-- Capacity of the undo history. -/
def MAX_UNDO_HISTORY : Nat := 20

/-- Embedding of `addToUndoHistory(content, description)`: push the entry,
then `undoHistory = undoHistory.slice(-MAX_UNDO_HISTORY)` when the length
exceeds the capacity. -/
def addToUndoHistory (st : AgentState) (content description : String) :
    AgentState :=
  let h := st.undoHistory ++ [⟨content, description⟩]
  { st with
    undoHistory :=
      if MAX_UNDO_HISTORY < h.length then h.drop (h.length - MAX_UNDO_HISTORY)
      else h }

/-- Embedding of `setDocument(newContent, addToHistory)`: push the prior
text when requested and actually different, replace the document, and
invoke the registered change callback (if any) with the new content.  The
second component lists the callback invocations performed by the call. -/
def setDocument (st : AgentState) (newContent : String) (addToHistory : Bool) :
    AgentState × List String :=
  let st1 :=
    if addToHistory ∧ st.documentContent ≠ newContent then
      addToUndoHistory st st.documentContent "Document replaced"
    else st
  let st2 := { st1 with documentContent := newContent }
  (st2, if st2.callbackRegistered then [newContent] else [])

/-- Embedding of `undoLastChange()`: pop the most recent entry and restore
it through `setDocument(..., false)`; on an empty history return `false`
without touching anything.  Returns (result, new state, callback calls). -/
def undoLastChange (st : AgentState) : Bool × AgentState × List String :=
  match st.undoHistory.getLast? with
  | none => (false, st, [])
  | some lastEntry =>
    let st1 := { st with undoHistory := st.undoHistory.dropLast }
    let p := setDocument st1 lastEntry.content false
    (true, p.1, p.2)

/-- Embedding of `canUndo()`. -/
def canUndo (st : AgentState) : Bool :=
  0 < st.undoHistory.length

/-- Embedding of the latex-diff branch of `askAI` (lines 167–193 of the
agent module), entered when the finished response contains diff blocks:
apply the batch, push the prior text with the batch-size label, store the
new text and notify the callback.  Returns (new state, callback calls). -/
def askAIDiffBranch (st : AgentState) (diffBlocks : List DiffBlock) :
    AgentState × List String :=
  let previousContent := st.documentContent
  let newContent := applyLatexDiffs st.documentContent diffBlocks
  let st1 := addToUndoHistory st previousContent
    ("Applied " ++ toString diffBlocks.length ++ " diff changes")
  let st2 := { st1 with documentContent := newContent }
  (st2, if st2.callbackRegistered then [newContent] else [])

/-- Embedding of `applyDiffs(diffBlocks)`: apply the batch and store the
result through `setDocument` (which records history only on an actual
change). -/
def applyDiffs (st : AgentState) (diffBlocks : List DiffBlock) :
    AgentState × List String :=
  setDocument st (applyLatexDiffs st.documentContent diffBlocks) true

end SimpleAgent

namespace LatexDiff

/-! ## Supporting lemmas about the matcher -/

lemma some_orelse {α : Type} (a : α) (x : Option α) : (some a <|> x) = some a :=
  rfl

lemma none_orelse {α : Type} (x : Option α) : ((none : Option α) <|> x) = x :=
  rfl

lemma dropLit_self_append : ∀ (p s : List Char), dropLit p (p ++ s) = some s := by
  intro p
  induction p with
  | nil => intro s; rfl
  | cons c ps ih => intro s; simp [dropLit, ih]

lemma matchWsStarGreedy_nil {α : Type} (k : List Char → Option α) :
    matchWsStarGreedy [] k = k [] := rfl

lemma matchWsStarGreedy_cons {α : Type} (c : Char) (t : List Char)
    (k : List Char → Option α) :
    matchWsStarGreedy (c :: t) k =
      if isJsWs c then (matchWsStarGreedy t k <|> k (c :: t))
      else k (c :: t) := rfl

lemma matchAnyLazy_nil {α : Type} (acc : List Char)
    (k : List Char → List Char → Option α) :
    matchAnyLazy acc [] k = (k acc.reverse [] <|> none) := rfl

lemma matchAnyLazy_cons {α : Type} (acc : List Char) (c : Char)
    (rest : List Char) (k : List Char → List Char → Option α) :
    matchAnyLazy acc (c :: rest) k =
      (k acc.reverse (c :: rest) <|> matchAnyLazy (c :: acc) rest k) := rfl

lemma matchDotLazy_nil {α : Type} (acc : List Char)
    (k : List Char → List Char → Option α) :
    matchDotLazy acc [] k = (k acc.reverse [] <|> none) := rfl

lemma matchDotLazy_cons {α : Type} (acc : List Char) (c : Char)
    (rest : List Char) (k : List Char → List Char → Option α) :
    matchDotLazy acc (c :: rest) k =
      (k acc.reverse (c :: rest) <|>
        (if isJsLineTerm c then none else matchDotLazy (c :: acc) rest k)) :=
  rfl

lemma dropLit_cons_ne (p c : Char) (hne : p ≠ c) (ps t : List Char) :
    dropLit (p :: ps) (c :: t) = none := by
  simp [dropLit, hne]

lemma searchFrom_cons (c : Char) (rest : List Char) :
    searchFrom (c :: rest) = (matchBlockAt (c :: rest) <|> searchFrom rest) :=
  rfl

/-- The lazy body capture over a backtick-free segment captures exactly
that segment, stopping at the appended closing fence. -/
lemma matchAnyLazy_bodyFin (bs : List Char) (hB : ∀ c ∈ bs, c ≠ tickChar) :
    ∀ acc, matchAnyLazy acc (bs ++ fenceTicks) bodyFin =
      some (acc.reverse ++ bs, []) := by
  induction bs with
  | nil =>
    intro acc
    rw [List.nil_append]
    show matchAnyLazy acc (tickChar :: tickChar :: tickChar :: []) bodyFin =
      some (acc.reverse ++ [], [])
    rw [matchAnyLazy_cons]
    have h1 : bodyFin acc.reverse (tickChar :: tickChar :: tickChar :: []) =
        some (acc.reverse, []) := by
      simp only [bodyFin]
      rw [show dropLit fenceTicks (tickChar :: tickChar :: tickChar :: []) =
        some [] from rfl]
      rfl
    rw [h1, some_orelse, List.append_nil]
  | cons c bs ih =>
    intro acc
    have hc : c ≠ tickChar := hB c (by simp)
    have hrest : ∀ x ∈ bs, x ≠ tickChar := fun x hx => hB x (by simp [hx])
    rw [List.cons_append, matchAnyLazy_cons]
    have h1 : bodyFin acc.reverse (c :: (bs ++ fenceTicks)) = none := by
      simp only [bodyFin,
        show fenceTicks = tickChar :: tickChar :: tickChar :: [] from rfl]
      rw [dropLit_cons_ne tickChar c (fun he => hc he.symm)]
      rfl
    rw [h1, none_orelse]
    rw [ih hrest (c :: acc)]
    simp

/-- Behaviour of the greedy `\s*` (with the `\n`-then-body continuation)
when scanning a backtick-free segment before the closing fence: it either
fails, or succeeds having consumed a whitespace run ending at the last
newline of that run. -/
lemma wsScan_afterNl (bs : List Char) (hB : ∀ c ∈ bs, c ≠ tickChar) :
    matchWsStarGreedy (bs ++ fenceTicks) afterNl = none ∨
    ∃ u v, bs = u ++ v ∧ (∀ c ∈ u, isJsWs c = true) ∧
      matchWsStarGreedy (bs ++ fenceTicks) afterNl = some (v, []) := by
  induction bs with
  | nil =>
    left
    rw [List.nil_append]
    decide
  | cons c bs ih =>
    have hrest : ∀ x ∈ bs, x ≠ tickChar := fun x hx => hB x (by simp [hx])
    have hmb : matchBody (bs ++ fenceTicks) = some (bs, []) := by
      rw [matchBody]
      simpa using matchAnyLazy_bodyFin bs hrest []
    have hafter : afterNl (c :: (bs ++ fenceTicks)) =
        (if c = '\n' then some (bs, []) else none) := by
      rw [afterNl]
      by_cases hnl : c = '\n'
      · rw [if_pos hnl, if_pos hnl, hmb]
      · rw [if_neg hnl, if_neg hnl]
    rw [List.cons_append, matchWsStarGreedy_cons]
    by_cases hws : isJsWs c
    · rw [if_pos hws]
      rcases ih hrest with hnone | ⟨u, v, huv, hu, hsome⟩
      · rw [hnone, none_orelse, hafter]
        by_cases hnl : c = '\n'
        · right
          refine ⟨[c], bs, by simp, ?_, by rw [if_pos hnl]⟩
          intro x hx
          rcases List.mem_singleton.mp hx with rfl
          exact hws
        · left
          rw [if_neg hnl]
      · right
        refine ⟨c :: u, v, by simp [huv], ?_,
          by rw [hsome]; exact some_orelse _ _⟩
        intro x hx
        rcases List.mem_cons.mp hx with rfl | hx
        · exact hws
        · exact hu x hx
    · rw [if_neg hws]
      left
      rw [hafter, if_neg (fun hnl => hws (by rw [hnl]; decide))]

/-- Behaviour of `\s*\n([\s\S]*?)` + closing fence after the metadata
line's closing `@@`, on a newline followed by a backtick-free body and
the closing fence: the match succeeds, capturing the body minus a
whitespace run that the greedy `\s*` absorbed. -/
lemma afterClose_newline_body (bs : List Char) (hB : ∀ c ∈ bs, c ≠ tickChar) :
    ∃ u v, bs = u ++ v ∧ (∀ c ∈ u, isJsWs c = true) ∧
      afterClose ('\n' :: (bs ++ fenceTicks)) = some (v, []) := by
  have hmb : afterNl ('\n' :: (bs ++ fenceTicks)) = some (bs, []) := by
    rw [afterNl, if_pos rfl, matchBody]
    simpa using matchAnyLazy_bodyFin bs hB []
  rw [afterClose, matchWsStarGreedy_cons,
    if_pos (by decide : isJsWs '\n' = true)]
  rcases wsScan_afterNl bs hB with hnone | ⟨u, v, huv, hu, hsome⟩
  · exact ⟨[], bs, by simp, by simp, by rw [hnone, none_orelse, hmb]⟩
  · exact ⟨u, v, huv, hu, by rw [hsome]; exact some_orelse _ _⟩

/-- Dropping a whitespace run in front of a list does not change its
JS-trimmed form. -/
lemma jsTrimL_ws_append (u v : List Char) (hu : ∀ c ∈ u, isJsWs c = true) :
    jsTrimL (u ++ v) = jsTrimL v := by
  simp only [jsTrimL]
  rw [List.dropWhile_append_of_pos hu]

/-- mkBlock on the concrete metadata `operation:add line:1` always
succeeds and stores the trimmed body. -/
lemma mkBlock_metaAdd1 (code : List Char) :
    mkBlock (("operation:add line:1").data) code =
      some (ParsedBlock.mk (JsVal.str "add") (JsVal.int 1) (JsVal.int 0)
        (String.mk (jsTrimL code))) := by
  have hmd : parseMetadata (("operation:add line:1").data) =
      [("line", JsVal.int 1), ("operation", JsVal.str "add")] := by decide
  simp only [mkBlock, hmd]
  rw [if_neg (by decide), if_neg (by decide)]
  rfl

/-- The concrete prefix of the C7 family: fence open, newline, metadata
line `@@ operation:add line:1 @@`, newline. -/
def pre7 : List Char := ("```latex-diff\n@@ operation:add line:1 @@\n").data

/-- The part of `pre7` after the fence-open marker, as an explicit
character list. -/
def midAdd1 : List Char :=
  '\n' :: '@' :: '@' :: ' ' :: 'o' :: 'p' :: 'e' :: 'r' :: 'a' :: 't' :: 'i' ::
  'o' :: 'n' :: ':' :: 'a' :: 'd' :: 'd' :: ' ' :: 'l' :: 'i' :: 'n' :: 'e' ::
  ':' :: '1' :: ' ' :: '@' :: '@' :: '\n' :: []

lemma pre7_decomp : pre7 = fenceDiffL ++ midAdd1 := by decide

/-- The block regular expression matches at the head of
`pre7 ++ B ++ fence` for any backtick-free `B`, capturing the metadata
`operation:add line:1` and a body equal to `B` minus a leading
whitespace run. -/
lemma matchBlockAt_pre7 (B : List Char) (hB : ∀ c ∈ B, c ≠ tickChar) :
    ∃ u v, B = u ++ v ∧ (∀ c ∈ u, isJsWs c = true) ∧
      matchBlockAt (pre7 ++ (B ++ fenceTicks)) =
        some (("operation:add line:1").data, v, []) := by
  obtain ⟨u, v, huv, hu, hac⟩ := afterClose_newline_body B hB
  refine ⟨u, v, huv, hu, ?_⟩
  rw [show pre7 ++ (B ++ fenceTicks) =
    fenceDiffL ++ (midAdd1 ++ (B ++ fenceTicks)) from by
      rw [pre7_decomp, List.append_assoc]]
  simp only [matchBlockAt, dropLit_self_append, Option.some_bind]
  simp only [midAdd1, List.cons_append, List.nil_append]
  simp [matchWsStarGreedy_cons, matchDotLazy_cons, metaClose, metaCloseAt,
    dropLit, atat, isJsWs, isJsLineTerm, hac]

lemma parseLoop_nil : ∀ fuel, parseLoop fuel [] = [] := by
  intro fuel
  cases fuel with
  | zero => rfl
  | succ n => rfl

lemma parseLoop_succ_found_some (n : Nat) (s m bd rest : List Char)
    (blk : ParsedBlock) (h : searchFrom s = some (m, bd, rest))
    (hmk : mkBlock m bd = some blk) :
    parseLoop (n + 1) s = blk :: parseLoop n rest := by
  rw [parseLoop, h]
  show (match mkBlock m bd with
    | none => parseLoop n rest
    | some b => b :: parseLoop n rest) = blk :: parseLoop n rest
  rw [hmk]

/-! ## Supporting lemmas about the applicator -/

/-- Splice with in-range indices is take/insert/drop. -/
lemma jsSplice_eq_of_bounds (l : List String) (start delC : Int)
    (items : List String) (h0 : 0 ≤ start) (h2 : 0 ≤ delC)
    (h3 : start + delC ≤ (l.length : Int)) :
    jsSplice l start delC items =
      l.take start.toNat ++ items ++ l.drop (start.toNat + delC.toNat) := by
  have h1 : start ≤ (l.length : Int) := by omega
  simp only [jsSplice]
  rw [if_neg (by omega : ¬ start < 0), min_eq_left h1,
    Int.toNat_of_nonneg h0, max_eq_left h2,
    min_eq_left (by omega : delC ≤ (l.length : Int) - start)]

/-- Membership in an `insertDesc` insertion. -/
lemma mem_insertDesc {b x : DiffBlock} {acc : List DiffBlock} :
    x ∈ insertDesc b acc ↔ x = b ∨ x ∈ acc := by
  induction acc with
  | nil => simp [insertDesc]
  | cons y ys ih =>
    rw [insertDesc]
    by_cases h : y.line < b.line
    · rw [if_pos h]
      simp only [List.mem_cons]
    · rw [if_neg h]
      simp only [List.mem_cons, ih]
      tauto

/-- `insertDesc` preserves descending sortedness. -/
lemma sorted_insertDesc {b : DiffBlock} {acc : List DiffBlock}
    (h : List.Sorted (fun a b => b.line ≤ a.line) acc) :
    List.Sorted (fun a b => b.line ≤ a.line) (insertDesc b acc) := by
  induction acc with
  | nil => simp [insertDesc]
  | cons y ys ih =>
    rw [List.sorted_cons] at h
    obtain ⟨hy, hys⟩ := h
    by_cases hl : y.line < b.line
    · rw [insertDesc, if_pos hl, List.sorted_cons]
      constructor
      · intro z hz
        rcases List.mem_cons.mp hz with hz | hz
        · subst hz; omega
        · have := hy z hz
          omega
      · rw [List.sorted_cons]
        exact ⟨hy, hys⟩
    · rw [insertDesc, if_neg hl, List.sorted_cons]
      refine ⟨?_, ih hys⟩
      intro z hz
      rcases mem_insertDesc.mp hz with hz | hz
      · subst hz; omega
      · exact hy z hz

/-- The batch really is processed in descending `line` order: the sorted
list the applicator folds over is descending-sorted. -/
lemma sorted_sortBlocksDesc (bs : List DiffBlock) :
    List.Sorted (fun a b => b.line ≤ a.line) (sortBlocksDesc bs) := by
  suffices h : ∀ acc, List.Sorted (fun a b => b.line ≤ a.line) acc →
      List.Sorted (fun a b => b.line ≤ a.line)
        (bs.foldl (fun acc b => insertDesc b acc) acc) by
    exact h [] (by simp)
  induction bs with
  | nil => intro acc hacc; simpa using hacc
  | cons b bs ih =>
    intro acc hacc
    exact ih (insertDesc b acc) (sorted_insertDesc hacc)

end LatexDiff

open LatexDiff SimpleAgent

/-! ## Claim C1 (Scenario D) -/

/-- The `{delete, line:7, deleteCount:1}` record of Scenario D. -/
def delBlock7 : DiffBlock := ⟨"delete", 7, 1, ""⟩

/-- The `{add, line:2, insertText:["A"]}` record of Scenario D. -/
def addBlockA2 : DiffBlock := ⟨"add", 2, 0, "A"⟩

/-- Scenario D's expected result: original line 7 removed and "A"
inserted immediately before original line 2. -/
def sceneDExpected (content : String) : String :=
  String.intercalate "\n"
    ((splitNL content).take 1 ++ ["A"] ++ ((splitNL content).take 6).drop 1 ++
      (splitNL content).drop 7)

/-- Claim C1: applyLatexDiffs applies records in descending order of
their `line` field (the list it folds over is descending-sorted), so in
Scenario D — a document of at least 7 lines with the batch
`[{delete, line:7, deleteCount:1}, {add, line:2, insertText:["A"]}]` in
either input order — the result has original line 7 removed and "A"
inserted immediately before original line 2. -/
theorem applyLatexDiffs_descending_sceneD (content : String)
    (h : 7 ≤ (splitNL content).length) :
    applyLatexDiffs content [delBlock7, addBlockA2] = sceneDExpected content ∧
    applyLatexDiffs content [addBlockA2, delBlock7] = sceneDExpected content ∧
    ∀ bs : List DiffBlock,
      List.Sorted (fun a b => b.line ≤ a.line) (sortBlocksDesc bs) := by
  have hsort1 : sortBlocksDesc [delBlock7, addBlockA2] =
      [delBlock7, addBlockA2] := rfl
  have hsort2 : sortBlocksDesc [addBlockA2, delBlock7] =
      [delBlock7, addBlockA2] := rfl
  have hlen : (6 : Int) + 1 ≤ ((splitNL content).length : Int) := by
    exact_mod_cast h
  have hdel : applyBlock (splitNL content) delBlock7 =
      (splitNL content).take 6 ++ (splitNL content).drop 7 := by
    rw [show applyBlock (splitNL content) delBlock7 =
        jsSplice (splitNL content) 6 1 [] from rfl]
    rw [jsSplice_eq_of_bounds _ _ _ _ (by omega) (by omega) (by omega)]
    rw [show (Int.toNat 6) = 6 from rfl]
    norm_num
  have hlen1 : (1 : Nat) ≤ ((splitNL content).take 6).length := by
    rw [List.length_take]
    omega
  have hadd : applyBlock ((splitNL content).take 6 ++ (splitNL content).drop 7)
      addBlockA2 =
      (splitNL content).take 1 ++ ["A"] ++
        ((splitNL content).take 6).drop 1 ++ (splitNL content).drop 7 := by
    rw [show applyBlock ((splitNL content).take 6 ++ (splitNL content).drop 7)
        addBlockA2 =
        jsSplice ((splitNL content).take 6 ++ (splitNL content).drop 7) 1 0
          ["A"] from rfl]
    rw [jsSplice_eq_of_bounds _ _ _ _ (by omega) (by omega)
      (by simp [List.length_append, List.length_take, List.length_drop]; omega)]
    rw [show (Int.toNat 1 + Int.toNat 0 : ℕ) = 1 from rfl,
      show (Int.toNat 1) = 1 from rfl]
    rw [List.take_append_of_le_length hlen1, List.take_take,
      show ((1 : ℕ) ⊓ 6) = 1 by decide,
      List.drop_append_of_le_length hlen1]
    simp [List.append_assoc]
  refine ⟨?_, ?_, fun bs => sorted_sortBlocksDesc bs⟩
  · rw [applyLatexDiffs, hsort1]
    rw [List.foldl_cons, List.foldl_cons, List.foldl_nil, hdel, hadd]
    rfl
  · rw [applyLatexDiffs, hsort2]
    rw [List.foldl_cons, List.foldl_cons, List.foldl_nil, hdel, hadd]
    rfl

/-- Positivity of the defaulted delete count. -/
lemma jsOrInt_one_nonneg (n : Int) (h : 0 ≤ n) : 0 ≤ jsOrInt n 1 := by
  unfold jsOrInt
  split <;> omega

/-- Claim C2: for a single record at a valid position, applyLatexDiffs
inserts the record's insert lines at zero-based index `line - 1` for an
add (removing nothing), removes `deleteCount` lines (defaulting to 1 when
zero) there and inserts the insert lines in their place for a replace,
and removes those lines inserting nothing for a delete. -/
theorem applyLatexDiffs_single_record_semantics (content : String)
    (b : DiffBlock) (hline : 1 ≤ b.line) :
    (b.operation = "add" →
      b.line ≤ ((splitNL content).length : Int) + 1 →
      applyLatexDiffs content [b] =
        String.intercalate "\n"
          ((splitNL content).take (b.line - 1).toNat ++ insertLinesOf b ++
            (splitNL content).drop (b.line - 1).toNat)) ∧
    (b.operation = "replace" → 0 ≤ b.deleteCount →
      b.line + jsOrInt b.deleteCount 1 - 1 ≤ ((splitNL content).length : Int) →
      applyLatexDiffs content [b] =
        String.intercalate "\n"
          ((splitNL content).take (b.line - 1).toNat ++ insertLinesOf b ++
            (splitNL content).drop
              ((b.line - 1).toNat + (jsOrInt b.deleteCount 1).toNat))) ∧
    (b.operation = "delete" → 0 ≤ b.deleteCount →
      b.line + jsOrInt b.deleteCount 1 - 1 ≤ ((splitNL content).length : Int) →
      applyLatexDiffs content [b] =
        String.intercalate "\n"
          ((splitNL content).take (b.line - 1).toNat ++
            (splitNL content).drop
              ((b.line - 1).toNat + (jsOrInt b.deleteCount 1).toNat))) := by
  have hfold : applyLatexDiffs content [b] =
      String.intercalate "\n" (applyBlock (splitNL content) b) := rfl
  refine ⟨?_, ?_, ?_⟩
  · intro hop hub
    rw [hfold]
    simp only [applyBlock]
    rw [if_pos hop]
    rw [jsSplice_eq_of_bounds _ _ _ _ (by omega) (by omega) (by omega)]
    rw [show (Int.toNat 0) = 0 from rfl, Nat.add_zero]
  · intro hop hdc hub
    rw [hfold]
    simp only [applyBlock]
    rw [if_neg (by rw [hop]; decide), if_pos hop]
    have hj := jsOrInt_one_nonneg b.deleteCount hdc
    rw [jsSplice_eq_of_bounds _ _ _ _ (by omega) (by omega) (by omega)]
  · intro hop hdc hub
    rw [hfold]
    simp only [applyBlock]
    rw [if_neg (by rw [hop]; decide), if_neg (by rw [hop]; decide), if_pos hop]
    have hj := jsOrInt_one_nonneg b.deleteCount hdc
    rw [jsSplice_eq_of_bounds _ _ _ _ (by omega) (by omega) (by omega)]
    simp

/-- Witness for C2 with a replace record on a three-line document. -/
theorem applyLatexDiffs_single_record_semantics_witness :
    1 ≤ (DiffBlock.mk "replace" 2 1 "X").line ∧
    (((DiffBlock.mk "replace" 2 1 "X").operation = "add" →
      (DiffBlock.mk "replace" 2 1 "X").line ≤
        ((splitNL "a\nb\nc").length : Int) + 1 →
      applyLatexDiffs "a\nb\nc" [DiffBlock.mk "replace" 2 1 "X"] =
        String.intercalate "\n"
          ((splitNL "a\nb\nc").take
              ((DiffBlock.mk "replace" 2 1 "X").line - 1).toNat ++
            insertLinesOf (DiffBlock.mk "replace" 2 1 "X") ++
            (splitNL "a\nb\nc").drop
              ((DiffBlock.mk "replace" 2 1 "X").line - 1).toNat)) ∧
    ((DiffBlock.mk "replace" 2 1 "X").operation = "replace" →
      0 ≤ (DiffBlock.mk "replace" 2 1 "X").deleteCount →
      (DiffBlock.mk "replace" 2 1 "X").line +
          jsOrInt (DiffBlock.mk "replace" 2 1 "X").deleteCount 1 - 1 ≤
        ((splitNL "a\nb\nc").length : Int) →
      applyLatexDiffs "a\nb\nc" [DiffBlock.mk "replace" 2 1 "X"] =
        String.intercalate "\n"
          ((splitNL "a\nb\nc").take
              ((DiffBlock.mk "replace" 2 1 "X").line - 1).toNat ++
            insertLinesOf (DiffBlock.mk "replace" 2 1 "X") ++
            (splitNL "a\nb\nc").drop
              (((DiffBlock.mk "replace" 2 1 "X").line - 1).toNat +
                (jsOrInt (DiffBlock.mk "replace" 2 1 "X").deleteCount
                    1).toNat))) ∧
    ((DiffBlock.mk "replace" 2 1 "X").operation = "delete" →
      0 ≤ (DiffBlock.mk "replace" 2 1 "X").deleteCount →
      (DiffBlock.mk "replace" 2 1 "X").line +
          jsOrInt (DiffBlock.mk "replace" 2 1 "X").deleteCount 1 - 1 ≤
        ((splitNL "a\nb\nc").length : Int) →
      applyLatexDiffs "a\nb\nc" [DiffBlock.mk "replace" 2 1 "X"] =
        String.intercalate "\n"
          ((splitNL "a\nb\nc").take
              ((DiffBlock.mk "replace" 2 1 "X").line - 1).toNat ++
            (splitNL "a\nb\nc").drop
              (((DiffBlock.mk "replace" 2 1 "X").line - 1).toNat +
                (jsOrInt (DiffBlock.mk "replace" 2 1 "X").deleteCount
                    1).toNat)))) :=
  ⟨by decide, applyLatexDiffs_single_record_semantics "a\nb\nc" _ (by decide)⟩

/-! ## Claim C8 (validateDiffBlock) -/

/-- The validator reports valid exactly when no error was pushed. -/
lemma validateDiffBlock_valid_iff_errors (content : String) (b : DiffBlock) :
    (validateDiffBlock content b).valid = true ↔
      (validateDiffBlock content b).errors = [] := by
  simp only [validateDiffBlock]
  split_ifs <;> simp

/-- The validator's error list is empty exactly when both checks pass. -/
lemma validateDiffBlock_errors_iff (content : String) (b : DiffBlock) :
    (validateDiffBlock content b).errors = [] ↔
      ¬ (b.line < 1 ∨ ((splitNL content).length : Int) + 1 < b.line) ∧
      ¬ ((b.operation = "replace" ∨ b.operation = "delete") ∧
          ((splitNL content).length : Int) <
            b.line + jsOrInt b.deleteCount 1 - 1) := by
  by_cases h1 : b.line < 1 ∨ ((splitNL content).length : Int) + 1 < b.line <;>
    by_cases h2 : (b.operation = "replace" ∨ b.operation = "delete") ∧
      ((splitNL content).length : Int) < b.line + jsOrInt b.deleteCount 1 - 1 <;>
    simp [validateDiffBlock, h1, h2]

/-- Claim C8: validateDiffBlock returns valid exactly when
`1 ≤ line ≤ lineCount + 1` and, for replace/delete, the deleted span
(with `deleteCount` defaulted to 1 when zero) ends within the document;
otherwise it returns valid = false with a non-empty error list.  (The
embedding is a pure function, so the call mutates neither the document
nor the record.) -/
theorem validateDiffBlock_correct (content : String) (b : DiffBlock) :
    ((validateDiffBlock content b).valid = true ↔
      (1 ≤ b.line ∧ b.line ≤ ((splitNL content).length : Int) + 1 ∧
        ((b.operation = "replace" ∨ b.operation = "delete") →
          b.line + jsOrInt b.deleteCount 1 - 1 ≤
            ((splitNL content).length : Int)))) ∧
    ((validateDiffBlock content b).valid = false →
      (validateDiffBlock content b).errors ≠ []) := by
  constructor
  · rw [validateDiffBlock_valid_iff_errors, validateDiffBlock_errors_iff]
    constructor
    · rintro ⟨ha, hb⟩
      push_neg at ha hb
      exact ⟨by omega, by omega, fun hop => by have := hb hop; omega⟩
    · rintro ⟨h1, h2, h3⟩
      constructor
      · push_neg
        omega
      · rintro ⟨hop, hlt⟩
        have := h3 hop
        omega
  · intro hv he
    have h := (validateDiffBlock_valid_iff_errors content b).mpr he
    rw [h] at hv
    simp at hv

/-- Witness for C8 on a three-line document with an in-range delete. -/
theorem validateDiffBlock_correct_witness :
    ((validateDiffBlock "a\nb\nc" (DiffBlock.mk "delete" 2 2 "")).valid = true ↔
      (1 ≤ (DiffBlock.mk "delete" 2 2 "").line ∧
        (DiffBlock.mk "delete" 2 2 "").line ≤
          ((splitNL "a\nb\nc").length : Int) + 1 ∧
        (((DiffBlock.mk "delete" 2 2 "").operation = "replace" ∨
            (DiffBlock.mk "delete" 2 2 "").operation = "delete") →
          (DiffBlock.mk "delete" 2 2 "").line +
              jsOrInt (DiffBlock.mk "delete" 2 2 "").deleteCount 1 - 1 ≤
            ((splitNL "a\nb\nc").length : Int)))) ∧
    ((validateDiffBlock "a\nb\nc" (DiffBlock.mk "delete" 2 2 "")).valid =
        false →
      (validateDiffBlock "a\nb\nc" (DiffBlock.mk "delete" 2 2 "")).errors ≠
        []) :=
  validateDiffBlock_correct "a\nb\nc" (DiffBlock.mk "delete" 2 2 "")

/-! ## Claims about the document store and undo log -/

/-- The entry just pushed by addToUndoHistory is always the newest one,
even when the capacity eviction fires. -/
lemma addToUndoHistory_getLast (st : AgentState) (c d : String) :
    (addToUndoHistory st c d).undoHistory.getLast? = some ⟨c, d⟩ := by
  simp only [addToUndoHistory]
  split_ifs with h
  · rw [List.drop_append_of_le_length
      (by simp only [List.length_append, List.length_singleton,
            MAX_UNDO_HISTORY]; omega)]
    exact List.getLast?_concat _
  · exact List.getLast?_concat _

/-- Claim C3 (amended): a successful apply through the latex-diff branch
of askAI always pushes the prior text, so an immediate undoLastChange
returns true and restores it; through applyDiffs the same holds provided
the applied batch actually changed the text (setDocument records history
only on an actual change). -/
theorem undo_restores_after_apply (st : AgentState) (blocks : List DiffBlock) :
    ((undoLastChange (askAIDiffBranch st blocks).1).1 = true ∧
      (undoLastChange (askAIDiffBranch st blocks).1).2.1.documentContent =
        st.documentContent) ∧
    (applyLatexDiffs st.documentContent blocks ≠ st.documentContent →
      (undoLastChange (applyDiffs st blocks).1).1 = true ∧
      (undoLastChange (applyDiffs st blocks).1).2.1.documentContent =
        st.documentContent) := by
  constructor
  · have hlast : (askAIDiffBranch st blocks).1.undoHistory.getLast? =
        some ⟨st.documentContent,
          "Applied " ++ toString blocks.length ++ " diff changes"⟩ := by
      simp only [askAIDiffBranch]
      exact addToUndoHistory_getLast st _ _
    simp [undoLastChange, hlast, setDocument]
  · intro hne
    have hlast : (applyDiffs st blocks).1.undoHistory.getLast? =
        some ⟨st.documentContent, "Document replaced"⟩ := by
      simp only [applyDiffs, setDocument]
      rw [if_pos ⟨by trivial, fun he => hne he.symm⟩]
      exact addToUndoHistory_getLast st _ _
    simp [undoLastChange, hlast, setDocument]

/-- Witness for C3 on a batch that actually changes the document. -/
theorem undo_restores_after_apply_witness :
    applyLatexDiffs ("a" : String) [DiffBlock.mk "add" 1 0 "B"] ≠ "a" ∧
    (((undoLastChange
        (askAIDiffBranch ⟨"a", [], false⟩ [DiffBlock.mk "add" 1 0 "B"]).1).1 =
          true ∧
      (undoLastChange
        (askAIDiffBranch ⟨"a", [], false⟩
          [DiffBlock.mk "add" 1 0 "B"]).1).2.1.documentContent =
        (AgentState.mk "a" [] false).documentContent) ∧
    (applyLatexDiffs (AgentState.mk "a" [] false).documentContent
        [DiffBlock.mk "add" 1 0 "B"] ≠
        (AgentState.mk "a" [] false).documentContent →
      (undoLastChange
        (applyDiffs ⟨"a", [], false⟩ [DiffBlock.mk "add" 1 0 "B"]).1).1 =
          true ∧
      (undoLastChange
        (applyDiffs ⟨"a", [], false⟩
          [DiffBlock.mk "add" 1 0 "B"]).1).2.1.documentContent =
        (AgentState.mk "a" [] false).documentContent)) :=
  ⟨by decide, undo_restores_after_apply ⟨"a", [], false⟩ _⟩

/-- Counterexample for C3 as stated: a non-empty batch whose application
leaves the text unchanged is applied successfully by applyDiffs, yet the
immediately following undoLastChange returns false (no history entry was
recorded), not true. -/
theorem undo_after_identity_applyDiffs_false :
    applyLatexDiffs ("a\nb" : String) [DiffBlock.mk "replace" 1 1 "a"] =
      "a\nb" ∧
    (undoLastChange
      (applyDiffs ⟨"a\nb", [], false⟩ [DiffBlock.mk "replace" 1 1 "a"]).1).1 =
      false := by
  constructor
  · rfl
  · rfl

/-- Claim C4: addToUndoHistory appends the new entry; the resulting
length is `min (n + 1) 20`, so a history within capacity stays within
capacity, and pushing onto a full history of 20 evicts exactly the
oldest entry. -/
theorem addToUndoHistory_capacity (st : AgentState) (c d : String) :
    (addToUndoHistory st c d).undoHistory.length =
      min (st.undoHistory.length + 1) MAX_UNDO_HISTORY ∧
    (st.undoHistory.length ≤ MAX_UNDO_HISTORY →
      (addToUndoHistory st c d).undoHistory.length ≤ MAX_UNDO_HISTORY) ∧
    (st.undoHistory.length = MAX_UNDO_HISTORY →
      (addToUndoHistory st c d).undoHistory =
        st.undoHistory.drop 1 ++ [⟨c, d⟩]) := by
  have hlen :
      (addToUndoHistory st c d).undoHistory.length =
        min (st.undoHistory.length + 1) MAX_UNDO_HISTORY := by
    simp only [addToUndoHistory, MAX_UNDO_HISTORY]
    split_ifs with h <;>
      simp only [List.length_drop, List.length_append, List.length_singleton]
        at h ⊢ <;> omega
  refine ⟨hlen, fun _ => by rw [hlen]; simp only [MAX_UNDO_HISTORY]; omega,
    fun hL => ?_⟩
  have hL20 : st.undoHistory.length = 20 := hL
  simp only [addToUndoHistory, MAX_UNDO_HISTORY]
  have hcond : 20 < (st.undoHistory ++ [(⟨c, d⟩ : UndoEntry)]).length := by
    simp only [List.length_append, List.length_singleton, hL20]
    omega
  rw [if_pos hcond]
  have hidx : (st.undoHistory ++ [(⟨c, d⟩ : UndoEntry)]).length - 20 = 1 := by
    simp only [List.length_append, List.length_singleton, hL20]
  rw [hidx, List.drop_append_of_le_length (by omega)]

/-- Witness for C4 at a full history of 20 entries. -/
theorem addToUndoHistory_capacity_witness :
    (AgentState.mk "x" (List.replicate 20 ⟨"o", "p"⟩) false).undoHistory.length =
      MAX_UNDO_HISTORY ∧
    ((addToUndoHistory (AgentState.mk "x" (List.replicate 20 ⟨"o", "p"⟩) false)
        "c" "d").undoHistory.length =
      min
        ((AgentState.mk "x" (List.replicate 20 ⟨"o", "p"⟩)
            false).undoHistory.length + 1)
        MAX_UNDO_HISTORY ∧
    ((AgentState.mk "x" (List.replicate 20 ⟨"o", "p"⟩)
        false).undoHistory.length ≤ MAX_UNDO_HISTORY →
      (addToUndoHistory (AgentState.mk "x" (List.replicate 20 ⟨"o", "p"⟩) false)
          "c" "d").undoHistory.length ≤ MAX_UNDO_HISTORY) ∧
    ((AgentState.mk "x" (List.replicate 20 ⟨"o", "p"⟩)
        false).undoHistory.length = MAX_UNDO_HISTORY →
      (addToUndoHistory (AgentState.mk "x" (List.replicate 20 ⟨"o", "p"⟩) false)
          "c" "d").undoHistory =
        (AgentState.mk "x" (List.replicate 20 ⟨"o", "p"⟩)
            false).undoHistory.drop 1 ++ [⟨"c", "d"⟩])) :=
  ⟨by decide,
    addToUndoHistory_capacity (AgentState.mk "x" (List.replicate 20 ⟨"o", "p"⟩)
      false) "c" "d"⟩

/-- Claim C9: undoLastChange on an empty history is a no-op returning
false (state untouched, no callback fired), and canUndo reports exactly
non-emptiness of the history. -/
theorem undo_empty_noop_canUndo (st : AgentState) :
    (st.undoHistory = [] → undoLastChange st = (false, st, [])) ∧
    (canUndo st = true ↔ st.undoHistory ≠ []) := by
  constructor
  · intro h
    simp [undoLastChange, h]
  · simp [canUndo, List.length_pos]

/-- Witness for C9 at an empty-history state. -/
theorem undo_empty_noop_canUndo_witness :
    ((AgentState.mk "doc" [] true).undoHistory = [] →
      undoLastChange (AgentState.mk "doc" [] true) =
        (false, AgentState.mk "doc" [] true, [])) ∧
    (canUndo (AgentState.mk "doc" [] true) = true ↔
      (AgentState.mk "doc" [] true).undoHistory ≠ []) :=
  undo_empty_noop_canUndo (AgentState.mk "doc" [] true)

/-- Claim C10: setDocument with content identical to the current text
pushes nothing onto the undo history, yet still invokes the registered
change callback (if any) with the new content. -/
theorem setDocument_identical_content (st : AgentState) (c : String)
    (h : c = st.documentContent) :
    (setDocument st c true).1.undoHistory = st.undoHistory ∧
    (setDocument st c true).1.documentContent = c ∧
    (setDocument st c true).2 =
      (if st.callbackRegistered then [c] else []) := by
  simp only [setDocument]
  rw [if_neg (by rintro ⟨_, hne⟩; exact hne h.symm)]
  simp

/-- Witness for C10 with a registered callback. -/
theorem setDocument_identical_content_witness :
    ("x" : String) = (AgentState.mk "x" [] true).documentContent ∧
    ((setDocument (AgentState.mk "x" [] true) "x" true).1.undoHistory =
        (AgentState.mk "x" [] true).undoHistory ∧
      (setDocument (AgentState.mk "x" [] true) "x" true).1.documentContent =
        "x" ∧
      (setDocument (AgentState.mk "x" [] true) "x" true).2 =
        (if (AgentState.mk "x" [] true).callbackRegistered then ["x"]
         else [])) :=
  ⟨rfl, setDocument_identical_content (AgentState.mk "x" [] true) "x" rfl⟩

/-! ## Claims C5 and C6 (parser) -/

/-- Counterexample for C5 as stated: on the text consisting of the opened
fence and the incomplete metadata line `@@ operation:add`, hasLatexDiffs
does not return true (its pattern requires the metadata line's closing
`@@`), so the claimed conjunction fails at this input. -/
theorem hasLatexDiffs_incomplete_metadata_false :
    ¬ (hasLatexDiffs "```latex-diff\n@@ operation:add" = true ∧
       parseLatexDiff "```latex-diff\n@@ operation:add" = []) := by
  decide

/-- Claim C5 (amended): hasLatexDiffs reports a patch marker only once
the metadata line's closing `@@` has arrived: it returns false on the
claim's text (incomplete metadata), and true on the same text extended
with `line:2 @@` — while parseLatexDiff, which needs the closing fence,
returns zero records for both. -/
theorem hasLatexDiffs_streaming_marker :
    hasLatexDiffs "```latex-diff\n@@ operation:add" = false ∧
    parseLatexDiff "```latex-diff\n@@ operation:add" = [] ∧
    hasLatexDiffs "```latex-diff\n@@ operation:add line:2 @@" = true ∧
    parseLatexDiff "```latex-diff\n@@ operation:add line:2 @@" = [] := by
  decide

/-- Boolean form of "the line metadata is an integer at least 1". -/
def lineGeOneB : JsVal → Bool
  | JsVal.int n => 1 ≤ n
  | _ => false

/-- Counterexample for C6 as stated: the complete block
`@@ operation:delete line:0 @@` with body `JUNK` parses to a record whose
operation is delete but whose insert text is non-empty, and whose line
number is 0 < 1 — the parser enforces neither invariant half. -/
theorem parseLatexDiff_record_invariant_fails :
    ¬ (∀ b ∈ parseLatexDiff
          "```latex-diff\n@@ operation:delete line:0 @@\nJUNK\n```",
        (b.operation = JsVal.str "delete" → b.insertContent = "") ∧
        lineGeOneB b.line = true) := by
  decide

/-- Every record pushed by mkBlock passed the metadata guard: its
operation is truthy, and a delete operation always carries a truthy
deleteCount (defaulted to 1 when the `delete` token is absent or falsy). -/
lemma mkBlock_some_props {m code : List Char} {blk : ParsedBlock}
    (h : mkBlock m code = some blk) :
    jsTruthy (some blk.operation) = true ∧
    (blk.operation = JsVal.str "delete" →
      jsTruthy (some blk.deleteCount) = true) := by
  unfold mkBlock at h
  by_cases hg : jsTruthy (lookupKey (parseMetadata m) "operation") = false ∨
      lookupKey (parseMetadata m) "line" = none
  · rw [if_pos hg] at h
    exact absurd h (by simp)
  · rw [if_neg hg] at h
    push_neg at hg
    obtain ⟨hop, _⟩ := hg
    have hopT : jsTruthy (lookupKey (parseMetadata m) "operation") = true := by
      revert hop
      cases jsTruthy (lookupKey (parseMetadata m) "operation") <;> simp
    by_cases hdel :
        lookupKey (parseMetadata m) "operation" = some (JsVal.str "delete") ∧
        jsTruthy (lookupKey (parseMetadata m) "delete") = false
    · rw [if_pos hdel] at h
      cases h
      constructor
      · have hlk : lookupKey
            (("delete", JsVal.int 1) :: parseMetadata m) "operation" =
            lookupKey (parseMetadata m) "operation" := by
          simp [lookupKey]
        simp only [hlk]
        cases hcase : lookupKey (parseMetadata m) "operation" with
        | none => rw [hcase] at hopT; simp [jsTruthy] at hopT
        | some v => rw [hcase] at hopT; simpa using hopT
      · intro _
        simp [lookupKey, jsOr, jsTruthy]
    · rw [if_neg hdel] at h
      cases h
      constructor
      · cases hcase : lookupKey (parseMetadata m) "operation" with
        | none => rw [hcase] at hopT; simp [jsTruthy] at hopT
        | some v => rw [hcase] at hopT; simpa using hopT
      · intro hopd
        have hopd2 : (lookupKey (parseMetadata m) "operation").getD
            (JsVal.str "") = JsVal.str "delete" := hopd
        have hcase : lookupKey (parseMetadata m) "operation" =
            some (JsVal.str "delete") := by
          cases hc : lookupKey (parseMetadata m) "operation" with
          | none => rw [hc] at hopT; simp [jsTruthy] at hopT
          | some v =>
            rw [hc] at hopd2
            simp only [Option.getD_some] at hopd2
            rw [hopd2]
        have htr : jsTruthy (lookupKey (parseMetadata m) "delete") = true := by
          by_contra hfalse
          have hfx : jsTruthy (lookupKey (parseMetadata m) "delete") = false := by
            revert hfalse
            cases jsTruthy (lookupKey (parseMetadata m) "delete") <;> simp
          exact hdel ⟨hcase, hfx⟩
        show jsTruthy (some (jsOr (lookupKey (parseMetadata m) "delete")
          (if lookupKey (parseMetadata m) "operation" =
              some (JsVal.str "delete")
           then JsVal.int 1 else JsVal.int 0))) = true
        cases hdc : lookupKey (parseMetadata m) "delete" with
        | none => rw [hdc] at htr; simp [jsTruthy] at htr
        | some v =>
          rw [hdc] at htr
          have hjo : jsOr (some v)
              (if lookupKey (parseMetadata m) "operation" =
                  some (JsVal.str "delete")
               then JsVal.int 1 else JsVal.int 0) = v := by
            simp [jsOr, htr]
          rw [hjo]
          exact htr

/-- Every record the parse loop ever returns satisfies any property of
mkBlock outputs. -/
lemma parseLoop_all_props (P : ParsedBlock → Prop)
    (hP : ∀ m code blk, mkBlock m code = some blk → P blk) :
    ∀ fuel s, ∀ b ∈ parseLoop fuel s, P b := by
  intro fuel
  induction fuel with
  | zero =>
    intro s b hb
    simp [parseLoop] at hb
  | succ n ih =>
    intro s b hb
    rw [parseLoop] at hb
    split at hb
    · simp at hb
    · split at hb
      · exact ih _ b hb
      · rename_i blk hmk
        rcases List.mem_cons.mp hb with hb1 | hb1
        · subst hb1
          exact hP _ _ _ hmk
        · exact ih _ b hb1

/-- Claim C6 (amended): for every input text, every record returned by
parseLatexDiff has a truthy operation, and a delete-operation record
always carries a truthy deleteCount (defaulted to 1 when the `delete`
token is missing or falsy); the parser enforces neither that delete
records have empty insert text nor that `line ≥ 1`. -/
theorem parseLatexDiff_guard_invariant (content : String) :
    ∀ b ∈ parseLatexDiff content,
      jsTruthy (some b.operation) = true ∧
      (b.operation = JsVal.str "delete" →
        jsTruthy (some b.deleteCount) = true) := by
  intro b hb
  exact parseLoop_all_props _
    (fun _ _ _ h => mkBlock_some_props h) _ _ b hb

/-- Witness for C6 (amended) on the delete-with-body input. -/
theorem parseLatexDiff_guard_invariant_witness :
    (ParsedBlock.mk (JsVal.str "delete") (JsVal.int 0) (JsVal.int 1) "JUNK") ∈
      parseLatexDiff
        "```latex-diff\n@@ operation:delete line:0 @@\nJUNK\n```" ∧
    (jsTruthy (some (ParsedBlock.mk (JsVal.str "delete") (JsVal.int 0)
        (JsVal.int 1) "JUNK").operation) = true ∧
      ((ParsedBlock.mk (JsVal.str "delete") (JsVal.int 0) (JsVal.int 1)
          "JUNK").operation = JsVal.str "delete" →
        jsTruthy (some (ParsedBlock.mk (JsVal.str "delete") (JsVal.int 0)
          (JsVal.int 1) "JUNK").deleteCount) = true)) :=
  ⟨by decide,
    parseLatexDiff_guard_invariant
      "```latex-diff\n@@ operation:delete line:0 @@\nJUNK\n```"
      (ParsedBlock.mk (JsVal.str "delete") (JsVal.int 0) (JsVal.int 1) "JUNK")
      (by decide)⟩

/-! ## Claim C7 (body capture) -/

/-- Counterexample for C7 as stated: in the complete block with body
lines `["", "X"]` (a leading blank line), the parsed record's insert text
splits to `["X"]` alone — parseLatexDiff stores `code.trim()`, so the
leading blank line of the captured body is not preserved character for
character. -/
theorem parseLatexDiff_body_not_verbatim :
    (parseLatexDiff
        "```latex-diff\n@@ operation:add line:1 @@\n\nX\n```").map
      (fun b => splitOnChar '\n' b.insertContent) = [["X"]] ∧
    (["X"] : List String) ≠ ["", "X"] := by
  decide

/-- Claim C7 (amended): for every complete block whose body `B` is free
of backticks, the single record parseLatexDiff produces carries as its
insert text the captured body with leading and trailing whitespace
trimmed (JavaScript `String.trim`), rather than the body character for
character: leading or trailing blank lines are dropped. -/
theorem parseLatexDiff_body_trimmed (B : List Char)
    (hB : ∀ c ∈ B, c ≠ tickChar) :
    parseLatexDiff (String.mk
      (("```latex-diff\n@@ operation:add line:1 @@\n").data ++
        (B ++ ("```").data))) =
      [ParsedBlock.mk (JsVal.str "add") (JsVal.int 1) (JsVal.int 0)
        (String.mk (jsTrimL B))] := by
  obtain ⟨u, v, huv, hu, hmb⟩ := matchBlockAt_pre7 B hB
  rw [show parseLatexDiff (String.mk
      (("```latex-diff\n@@ operation:add line:1 @@\n").data ++
        (B ++ ("```").data))) =
    parseLoop
      ((("```latex-diff\n@@ operation:add line:1 @@\n").data ++
        (B ++ ("```").data)).length + 1)
      (("```latex-diff\n@@ operation:add line:1 @@\n").data ++
        (B ++ ("```").data)) from rfl]
  rw [show ("```latex-diff\n@@ operation:add line:1 @@\n").data = pre7
      from rfl,
    show ("```").data = fenceTicks from rfl]
  have hsearch : searchFrom (pre7 ++ (B ++ fenceTicks)) =
      some (("operation:add line:1").data, v, []) := by
    have hp : pre7 = tickChar ::
        ("``latex-diff\n@@ operation:add line:1 @@\n").data := by decide
    rw [hp, List.cons_append, searchFrom_cons, ← List.cons_append, ← hp, hmb]
    exact some_orelse _ _
  rw [parseLoop_succ_found_some _ _ _ _ _ _ hsearch (mkBlock_metaAdd1 v),
    parseLoop_nil]
  rw [huv, jsTrimL_ws_append u v hu]

/-- Witness for C7 (amended) at the body `"\nX\n"`, whose trimmed insert
text is `"X"`. -/
theorem parseLatexDiff_body_trimmed_witness :
    (∀ c ∈ ("\nX\n").data, c ≠ tickChar) ∧
    parseLatexDiff (String.mk
      (("```latex-diff\n@@ operation:add line:1 @@\n").data ++
        (("\nX\n").data ++ ("```").data))) =
      [ParsedBlock.mk (JsVal.str "add") (JsVal.int 1) (JsVal.int 0)
        (String.mk (jsTrimL ("\nX\n").data))] ∧
    String.mk (jsTrimL ("\nX\n").data) = "X" :=
  ⟨by decide, parseLatexDiff_body_trimmed (("\nX\n").data) (by decide),
    by decide⟩

/-- Witness for C1 at a concrete 8-line document. -/
theorem applyLatexDiffs_descending_sceneD_witness :
    7 ≤ (splitNL "l1\nl2\nl3\nl4\nl5\nl6\nl7\nl8").length ∧
    (applyLatexDiffs "l1\nl2\nl3\nl4\nl5\nl6\nl7\nl8"
        [delBlock7, addBlockA2] =
      sceneDExpected "l1\nl2\nl3\nl4\nl5\nl6\nl7\nl8" ∧
    applyLatexDiffs "l1\nl2\nl3\nl4\nl5\nl6\nl7\nl8"
        [addBlockA2, delBlock7] =
      sceneDExpected "l1\nl2\nl3\nl4\nl5\nl6\nl7\nl8" ∧
    ∀ bs : List DiffBlock,
      List.Sorted (fun a b => b.line ≤ a.line) (sortBlocksDesc bs)) :=
  ⟨by decide, applyLatexDiffs_descending_sceneD _ (by decide)⟩
